import Mathlib

/-!
# A shallow embedding of the rbattle game core

This file embeds the simulation core of the rbattle repository
(`src/state.rs`, `src/xorshift.rs`, `src/scheduler.rs`) in Lean 4 and
proves properties of it.

Conventions of the embedding:

* Rust `usize` values are modelled as `Nat`; the `u64` arithmetic of the
  xorshift generator is modelled as `Nat` with explicit reduction `% 2 ^ 64`.
* Rust panics (out-of-bounds indexing, `index_mut_pair` on equal indices,
  failed `assert!`s, `unwrap` of `None`, flow from an empty node, an
  unoccupied source node) are modelled by returning `Option.none`.
* `Vec<T>` becomes `List T`; `Vec::pop` removes the last element, so the
  flow loop is run on the *reversed* shuffled list (head of the Lean list =
  end of the Rust vector); `Vec::retain` on the vector corresponds to
  `List.filter` on the reversed list, since `retain`/`filter` keep relative
  order and commute with reversal.
* The static `Map` is reduced to the data the simulation core reads from
  it: the list of source nodes.  `State::flow` iterates over
  `0 .. map.graph.nodes()`; `State::new` builds `nodes` with exactly
  `map.graph.nodes()` elements and no code ever resizes it, so the loop
  bound is taken to be `nodes.length`.
-/

namespace RBattle

/-- `Occupied` from `src/state.rs`: the state of a node occupied by some
player.  `Player(usize)` is unwrapped to a bare `Nat`. -/
structure Occupied where
  player : Nat
  outflows : List Nat
  goop : Nat
deriving DecidableEq, Repr

/-- One entry of `State::nodes`: `Option<Occupied>`. -/
abbrev NodeCell := Option Occupied

/-- `MAX_GOOP` from `src/state.rs`. -/
def MAX_GOOP : Nat := 15

/-- `XorShift128Plus` from `src/xorshift.rs`: `state: [u64; 2]`.
`state0`/`state1` are the two words, kept below `2 ^ 64`. -/
structure XorShift128Plus where
  state0 : Nat
  state1 : Nat
deriving DecidableEq, Repr

/-- `XorShift128Plus::next_u64` from `src/xorshift.rs`, with `u64`
arithmetic written out over `Nat` (`wrapping_add` and `<<` reduce
`% 2 ^ 64`; `^` is xor, `>>` is right shift). -/
def next_u64 (r : XorShift128Plus) : Nat × XorShift128Plus :=
  let s1 := r.state0
  let s0 := r.state1
  let s1' := (s1 ^^^ (s1 <<< 23)) % 2 ^ 64
  let new1 := s1' ^^^ s0 ^^^ (s1' >>> 17) ^^^ (s0 >>> 26)
  ((new1 + s0) % 2 ^ 64, { state0 := s0, state1 := new1 })

/-- `simulate_flow` from `src/state.rs`.  Takes the cells of the origin and
destination node, returns the updated cells and the `attacked` flag, or
`none` for the panic on an empty origin.  The match arms appear in source
order:
1. empty origin: panic;
2. origin goop 0: no effect;
3. unoccupied destination: claim it with one unit;
4. same player: move one unit if the destination is below `MAX_GOOP`;
5. different player, destination goop > 1: mutual cancellation, attack;
6. different player, destination goop ≤ 1: capture, attack
   (`target.goop = 1 - target.goop`). -/
def simulate_flow : NodeCell → NodeCell → Option (NodeCell × NodeCell × Bool)
  | none, _ => none
  | some f, t =>
    if f.goop = 0 then some (some f, t, false)
    else
      match t with
      | none =>
        some (some { f with goop := f.goop - 1 },
              some { player := f.player, outflows := [], goop := 1 }, false)
      | some tn =>
        if f.player = tn.player then
          if 0 < f.goop ∧ tn.goop < MAX_GOOP then
            some (some { f with goop := f.goop - 1 },
                  some { tn with goop := tn.goop + 1 }, false)
          else
            some (some f, some tn, false)
        else if 1 < tn.goop then
          some (some { f with goop := f.goop - 1 },
                some { tn with goop := tn.goop - 1, outflows := [] }, true)
        else
          some (some { f with goop := f.goop - 1 },
                some { player := f.player, outflows := [], goop := 1 - tn.goop }, true)

/-- The `while let Some((from_index, to_index)) = outflow_list.pop()` loop of
`State::flow`, run on the reversed vector (head = next pop).  `index_mut_pair`
panics when the two indices are equal or either is out of range, hence the
guard.  After an attack on `to`, still-pending pairs whose origin is `to` are
removed (`retain` in the source, `filter` here). -/
def flowLoopRev (nodes : List NodeCell) : List (Nat × Nat) → Option (List NodeCell)
  | [] => some nodes
  | (fr, dst) :: rest =>
    if fr = dst ∨ nodes.length ≤ fr ∨ nodes.length ≤ dst then none
    else
      match simulate_flow (nodes.getD fr none) (nodes.getD dst none) with
      | none => none
      | some (f', t', attacked) =>
        let nodes' := (nodes.set fr f').set dst t'
        let rest' := if attacked then rest.filter (fun p => p.1 ≠ dst) else rest
        flowLoopRev nodes' rest'
termination_by l => l.length
decreasing_by
  simp only [List.length_cons]
  calc rest'.length ≤ rest.length := by
        unfold rest'
        split
        · exact List.length_filter_le _ _
        · exact Nat.le_refl _
    _ < rest.length + 1 := Nat.lt_succ_self _

/-- The outflow-pair list built at the top of `State::flow`: for each node in
index order, one `(node, outflow)` pair per entry of its `outflows` list. -/
def buildOutflowList (nodes : List NodeCell) : List (Nat × Nat) :=
  (List.range nodes.length).flatMap fun node =>
    match nodes.getD node none with
    | none => []
    | some occ => occ.outflows.map fun o => (node, o)

/-- One swap of two positions of a list (Rust `slice::swap`). -/
def listSwap (l : List (Nat × Nat)) (i j : Nat) : List (Nat × Nat) :=
  match l.get? i, l.get? j with
  | some a, some b => (l.set i b).set j a
  | _, _ => l

/-- The Fisher–Yates loop of `Rng::shuffle` from the external `rand` crate
(`while i >= 2 { i -= 1; values.swap(i, gen_range(0, i + 1)) }`).  `rand` is
an external dependency, not part of this repository; `gen_range(0, i + 1)`
is modelled as a modular draw from `next_u64`.  None of the theorems below
depend on which permutation the shuffle produces. -/
def shuffleAux (rng : XorShift128Plus) (l : List (Nat × Nat)) :
    Nat → List (Nat × Nat) × XorShift128Plus
  | 0 => (l, rng)
  | 1 => (l, rng)
  | i + 2 =>
    let i' := i + 1
    let (v, rng') := next_u64 rng
    shuffleAux rng' (listSwap l i' (v % (i' + 1))) i'

/-- `self.rng.shuffle(&mut outflow_list)` from `State::flow`. -/
def shuffle (rng : XorShift128Plus) (l : List (Nat × Nat)) :
    List (Nat × Nat) × XorShift128Plus :=
  shuffleAux rng l l.length

/-- `State` from `src/state.rs`, reduced to the fields the simulation core
reads: the source-node list of the immutable map, the node cells, and the
PRNG. -/
structure State where
  sources : List Nat
  nodes : List NodeCell
  rng : XorShift128Plus
deriving DecidableEq, Repr

/-- `State::flow`: build the outflow list, shuffle it with the state's own
PRNG, then run the pop loop. -/
def State.flow (s : State) : Option State :=
  let p := shuffle s.rng (buildOutflowList s.nodes)
  match flowLoopRev s.nodes p.1.reverse with
  | none => none
  | some nodes' => some { s with nodes := nodes', rng := p.2 }

/-- The loop body of `State::generate_goop`: every source node gains one
goop, capped at `MAX_GOOP`; an absent or out-of-range source is a panic. -/
def genGoopAux : List NodeCell → List Nat → Option (List NodeCell)
  | nodes, [] => some nodes
  | nodes, src :: rest =>
    match nodes.get? src with
    | none => none
    | some none => none
    | some (some occ) =>
      let occ' := if occ.goop < MAX_GOOP then { occ with goop := occ.goop + 1 } else occ
      genGoopAux (nodes.set src (some occ')) rest

/-- `State::generate_goop`. -/
def State.generate_goop (s : State) : Option State :=
  match genGoopAux s.nodes s.sources with
  | none => none
  | some nodes' => some { s with nodes := nodes' }

/-- `State::advance`: `flow` then `generate_goop`. -/
def State.advance (s : State) : Option State :=
  match s.flow with
  | none => none
  | some s' => s'.generate_goop

/-- `Action` from `src/state.rs`.  The Rust field `from` is called `fr`
here (`from` is a Lean keyword). -/
inductive Action where
  | ToggleOutflow (player : Nat) (fr : Nat) (dst : Nat)
deriving DecidableEq, Repr

/-- `State::take_action`: toggle membership of `to` in the outflows of node
`fr`, provided `fr` is occupied by the acting player; an absent or foreign
node is silently left unchanged; an out-of-range `fr` is an indexing
panic. -/
def State.take_action (s : State) (a : Action) : Option State :=
  match a with
  | .ToggleOutflow player fr dst =>
    match s.nodes.get? fr with
    | none => none
    | some none => some s
    | some (some occ) =>
      if occ.player ≠ player then some s
      else
        let outflows' :=
          if occ.outflows.contains dst then occ.outflows.filter (fun dest => dest ≠ dst)
          else occ.outflows ++ [dst]
        some { s with nodes := s.nodes.set fr (some { occ with outflows := outflows' }) }

/-- `GameParameters` from `src/state.rs` (the player colors are only used
by the renderer and are dropped). -/
structure GameParameters where
  board : Nat × Nat
  sources : List Nat
deriving Repr

/-- The source-registration loop of `State::new`: the `i`-th registered
source node becomes occupied by player `i` with no outflows and no goop.
An out-of-range source index is a panic. -/
def newNodesAux : List NodeCell → Nat → List Nat → Option (List NodeCell)
  | nodes, _, [] => some nodes
  | nodes, player, src :: rest =>
    if src < nodes.length then
      newNodesAux (nodes.set src (some { player := player, outflows := [], goop := 0 }))
        (player + 1) rest
    else none

/-- `State::new`: a board of `board.1 * board.2` nodes
(`SquareGrid::new(r, c).nodes() = r * c`), all vacant except the sources,
and the fixed PRNG seed. -/
def State.new (params : GameParameters) : Option State :=
  match newNodesAux (List.replicate (params.board.1 * params.board.2) none) 0 params.sources with
  | none => none
  | some nodes =>
    some { sources := params.sources, nodes := nodes,
           rng := { state0 := 0xcd9d5eaaf04bc9a7, state1 := 0x4602cc7098d01ef9 } }

/-- A 64-bit FNV-style accumulation step, used by the checksum model. -/
def hashStep (acc n : Nat) : Nat := (acc * 1099511628211 + (n + 1)) % 2 ^ 64

/-- Hash of one node cell, used by the checksum model. -/
def cellHash (acc : Nat) : NodeCell → Nat
  | none => hashStep acc 0
  | some occ =>
    hashStep ((occ.outflows.foldl hashStep (hashStep (hashStep acc 1) occ.player))) occ.goop

/-- Modelled from the spec: `State::checksum` is called by the scheduler and
the protocol layer but its definition is not under `src/`.  The spec says it
is a deterministic 64-bit hash over the node cells and the rng state,
excluding the static map; it is modelled here as a concrete deterministic
fold over exactly those fields. -/
def State.checksum (s : State) : Nat :=
  hashStep (hashStep (s.nodes.foldl cellHash 14695981039346656037) s.rng.state0) s.rng.state1

/-- Modelled from the spec: `State::max_players` is called by
`Scheduler::player_join` but its definition is not under `src/`.  The spec
says the configured maximum number of players equals the number of source
nodes. -/
def State.max_players (s : State) : Nat := s.sources.length

/-- `PlayerActions` from `src/scheduler.rs`. -/
structure PlayerActions where
  player : Nat
  turn : Nat
  actions : List Action
deriving DecidableEq, Repr

/-- `CollectedActions` from `src/scheduler.rs`. -/
structure CollectedActions where
  turn : Nat
  actions : List Action
  state_checksum : Nat
deriving DecidableEq, Repr

/-- `Scheduler` from `src/scheduler.rs`.  A boxed `Notifier` trait object
(a one-shot reply channel) is modelled as an opaque channel identifier
(`Nat`); `last_broadcast` and the `MIN_DELAY_NS` sleep are wall-clock
pacing with no effect on the data the scheduler computes and are
omitted. -/
structure Scheduler where
  turn : Nat
  state : State
  pending_actions : List (Option (PlayerActions × Nat))
deriving Repr

/-- `Scheduler::new`. -/
def Scheduler.new (initial_state : State) : Scheduler :=
  { turn := 0, state := initial_state, pending_actions := [] }

/-- `Scheduler::player_join`: admit a player while there is room, assigning
the next sequential player number and a snapshot of the current state. -/
def Scheduler.player_join (sch : Scheduler) : Option (Scheduler × Nat × State) :=
  if sch.state.max_players ≤ sch.pending_actions.length then none
  else
    some ({ sch with pending_actions := sch.pending_actions ++ [none] },
          sch.pending_actions.length, sch.state)

/-- The inner `for action in player_actions.actions` loop of
`Scheduler::submit_actions`: apply each action to the state in submission
order (a panic inside `take_action` aborts). -/
def applyActions (s : State) : List Action → Option State
  | [] => some s
  | a :: rest =>
    match s.take_action a with
    | none => none
    | some s' => applyActions s' rest

/-- The `for player in pendings` loop of `Scheduler::submit_actions`: walk
the pending slots in player-index order, apply each player's actions to the
state in submission order, and collect the actions and the reply channels
in that same order.  An empty slot is the `unwrap` panic. -/
def processPending (s : State) :
    List (Option (PlayerActions × Nat)) → Option (State × List Action × List Nat)
  | [] => some (s, [], [])
  | none :: _ => none
  | some (pa, reply) :: rest =>
    match applyActions s pa.actions with
    | none => none
    | some s' =>
      match processPending s' rest with
      | none => none
      | some (sf, acts, replies) => some (sf, pa.actions ++ acts, reply :: replies)

/-- `Scheduler::submit_actions`.  Returns the updated scheduler plus the
list of notifications sent, as `(reply channel, CollectedActions)` pairs
(empty while the barrier is incomplete).  The two `assert!`s (turn
mismatch, duplicate submission) and an out-of-range player index are
panics; the minimum-interval sleep is wall-clock pacing and is omitted. -/
def Scheduler.submit_actions (sch : Scheduler) (actions : PlayerActions)
    (reply_to : Nat) : Option (Scheduler × List (Nat × CollectedActions)) :=
  if actions.turn ≠ sch.turn then none
  else
    match sch.pending_actions.get? actions.player with
    | none => none
    | some (some _) => none
    | some none =>
      let pending := sch.pending_actions.set actions.player (some (actions, reply_to))
      if pending.all (fun o => o.isSome) then
        match processPending sch.state pending with
        | none => none
        | some (s1, collected_actions, collected_reply_tos) =>
          match s1.advance with
          | none => none
          | some s2 =>
            let state_checksum := s2.checksum
            let collected : CollectedActions :=
              { turn := sch.turn + 1, actions := collected_actions, state_checksum }
            some ({ turn := sch.turn + 1, state := s2,
                    pending_actions := List.replicate pending.length none },
                  collected_reply_tos.map fun r => (r, collected))
      else
        some ({ sch with pending_actions := pending }, [])

/-- `advance` iterated `n` times (a panic anywhere aborts the run). -/
def advanceN : Nat → State → Option State
  | 0, s => some s
  | n + 1, s =>
    match s.advance with
    | none => none
    | some s' => advanceN n s'

/-- One node cell respects the goop bound: vacant, or holding at most
`MAX_GOOP`. -/
def cellGoopOK : NodeCell → Prop
  | none => True
  | some occ => occ.goop ≤ MAX_GOOP

instance (c : NodeCell) : Decidable (cellGoopOK c) :=
  match c with
  | none => isTrue trivial
  | some occ => inferInstanceAs (Decidable (occ.goop ≤ MAX_GOOP))

/-- Every cell of the board respects the goop bound. -/
def goopBounded (nodes : List NodeCell) : Prop :=
  ∀ c ∈ nodes, cellGoopOK c

instance (nodes : List NodeCell) : Decidable (goopBounded nodes) :=
  List.decidableBAll _ nodes

/-- Two node cells that agree up to the order of the outflow list: same
occupancy, same owner, same goop, same set of outflow targets. -/
def cellToggleEquiv : NodeCell → NodeCell → Prop
  | none, none => True
  | some o₁, some o₂ =>
      o₁.player = o₂.player ∧ o₁.goop = o₂.goop ∧
        ∀ n, n ∈ o₁.outflows ↔ n ∈ o₂.outflows
  | _, _ => False

/-- `flowLoopRev` instrumented with a trace of the pairs it actually
executes, in execution order, each with its `attacked` flag.  `flowLoopRev`
is its first projection (proved in `flowLoopRevT_fst`). -/
def flowLoopRevT (nodes : List NodeCell) :
    List (Nat × Nat) → Option (List NodeCell × List (Nat × Nat × Bool))
  | [] => some (nodes, [])
  | (fr, dst) :: rest =>
    if fr = dst ∨ nodes.length ≤ fr ∨ nodes.length ≤ dst then none
    else
      match simulate_flow (nodes.getD fr none) (nodes.getD dst none) with
      | none => none
      | some (f', t', attacked) =>
        let nodes' := (nodes.set fr f').set dst t'
        let rest' := if attacked then rest.filter (fun p => p.1 ≠ dst) else rest
        match flowLoopRevT nodes' rest' with
        | none => none
        | some (res, tr) => some (res, (fr, dst, attacked) :: tr)
termination_by l => l.length
decreasing_by
  simp only [List.length_cons]
  calc rest'.length ≤ rest.length := by
        unfold rest'
        split
        · exact List.length_filter_le _ _
        · exact Nat.le_refl _
    _ < rest.length + 1 := Nat.lt_succ_self _

/-- The canonical per-turn action order stated by the spec: concatenation
over the pending slots in increasing player-index order of each player's
actions in their submission order. -/
def canonicalActions (pending : List (Option (PlayerActions × Nat))) : List Action :=
  pending.flatMap fun o =>
    match o with
    | none => []
    | some (pa, _) => pa.actions

/-- The reply channels stored in the pending slots, in player-index
order. -/
def storedReplies (pending : List (Option (PlayerActions × Nat))) : List Nat :=
  pending.filterMap fun o => o.map Prod.snd

/-- The pending-slot vector after a submission is stored: slot
`pa.player` is filled with the submission and its reply channel. -/
def pendingAfter (sch : Scheduler) (pa : PlayerActions) (r : Nat) :
    List (Option (PlayerActions × Nat)) :=
  sch.pending_actions.set pa.player (some (pa, r))

/-- A sequence of `submit_actions` calls, concatenating the notifications
they send. -/
def submitSeq (sch : Scheduler) :
    List (PlayerActions × Nat) → Option (Scheduler × List (Nat × CollectedActions))
  | [] => some (sch, [])
  | (pa, r) :: rest =>
    match sch.submit_actions pa r with
    | none => none
    | some (sch', outs) =>
      match submitSeq sch' rest with
      | none => none
      | some (schf, outsf) => some (schf, outs ++ outsf)

/-!  ## Theorems  -/

/-- A successful `get?` implies the index is in range. -/
lemma get?_some_lt {α : Type} {l : List α} {n : Nat} {a : α}
    (h : l.get? n = some a) : n < l.length := by
  by_contra hge
  have hnone : l.get? n = none := by
    rw [List.get?_eq_getElem?]
    exact List.getElem?_eq_none (by omega)
  rw [hnone] at h
  exact Option.noConfusion h

/-- C1: in `flow()`'s per-pair processing, when the origin node is occupied
with goop > 0 and the destination node is occupied by a different player
with goop ≤ 1, the destination's ownership transfers to the origin's
player, its outflows are cleared, its goop becomes the net result of the
one-unit exchange (0 becomes 1, 1 becomes 0, i.e. `1 - goop`), the origin's
goop decreases by exactly one, and the pair counts as an attack. -/
theorem C1_attack_capture (f t : Occupied)
    (hf : 0 < f.goop) (hp : f.player ≠ t.player) (ht : t.goop ≤ 1) :
    simulate_flow (some f) (some t) =
      some (some { f with goop := f.goop - 1 },
            some { player := f.player, outflows := [], goop := 1 - t.goop }, true) := by
  simp only [simulate_flow]
  rw [if_neg (by omega), if_neg hp, if_neg (by omega)]

/-- Witness for C1 at a concrete attacking pair. -/
theorem C1_attack_capture_witness :
    0 < (3 : Nat) ∧ (1 : Nat) ≠ 2 ∧ (1 : Nat) ≤ 1 ∧
    simulate_flow (some ⟨1, [2], 3⟩) (some ⟨2, [1], 1⟩) =
      some (some ⟨1, [2], 2⟩, some ⟨1, [], 0⟩, true) :=
  ⟨by decide, by decide, by decide,
   C1_attack_capture ⟨1, [2], 3⟩ ⟨2, [1], 1⟩ (by decide) (by decide) (by decide)⟩

/-- C2: `advance()` is a function of the state alone (nodes, PRNG state and
the map's source list); two identical starting states produce identical
resulting states and equal checksums.  In this embedding `advance` is a
pure function with no other inputs — no clock, platform randomness or
unordered iteration occurs anywhere in `flow`/`generate_goop`, which walk
vectors in index order and draw randomness only from the state's own
xorshift128+ generator. -/
theorem C2_advance_deterministic (s t : State)
    (hn : s.nodes = t.nodes) (hr : s.rng = t.rng) (hs : s.sources = t.sources) :
    s.advance = t.advance ∧
      s.advance.map State.checksum = t.advance.map State.checksum := by
  obtain ⟨ss, sn, sr⟩ := s
  obtain ⟨ts, tn, tr⟩ := t
  cases hn; cases hr; cases hs
  exact ⟨rfl, rfl⟩

/-- Witness for C2 at a concrete two-node state. -/
theorem C2_advance_deterministic_witness :
    (State.advance { sources := [0], nodes := [some ⟨0, [1], 15⟩, none],
                     rng := { state0 := 1, state1 := 4 } } =
     State.advance { sources := [0], nodes := [some ⟨0, [1], 15⟩, none],
                     rng := { state0 := 1, state1 := 4 } }) ∧
    (Option.map State.checksum
       (State.advance { sources := [0], nodes := [some ⟨0, [1], 15⟩, none],
                        rng := { state0 := 1, state1 := 4 } }) =
     Option.map State.checksum
       (State.advance { sources := [0], nodes := [some ⟨0, [1], 15⟩, none],
                        rng := { state0 := 1, state1 := 4 } })) :=
  C2_advance_deterministic _ _ rfl rfl rfl

/-- C9: a `ToggleOutflow` whose origin node is absent, or occupied by a
player other than the acting one, leaves the state entirely unchanged and
is not an error (the result is `some` of the unchanged state, not a
panic). -/
theorem C9_foreign_or_absent_noop (s : State) (player fr dst : Nat) (cell : NodeCell)
    (hget : s.nodes.get? fr = some cell)
    (hcond : cell = none ∨ ∃ occ, cell = some occ ∧ occ.player ≠ player) :
    s.take_action (.ToggleOutflow player fr dst) = some s := by
  rcases hcond with h | ⟨occ, h, hocc⟩
  · subst h
    simp only [State.take_action, hget]
  · subst h
    simp only [State.take_action, hget]
    rw [if_pos hocc]

/-- C7 counterexample: toggling the same outflow twice does not always
restore the exact original state.  Node 0's outflow list is `[1, 2]`;
toggling outflow 1 removes it (`retain`), toggling again appends it at the
end (`push`), giving `[2, 1]` — the same set, a different list, hence a
different state (and a different hash). -/
theorem C7_counterexample :
    ((State.take_action { sources := [], nodes := [some ⟨0, [1, 2], 5⟩, none, none],
                          rng := { state0 := 1, state1 := 4 } }
        (.ToggleOutflow 0 0 1)).bind
      (fun s => s.take_action (.ToggleOutflow 0 0 1))) ≠
    some { sources := [], nodes := [some ⟨0, [1, 2], 5⟩, none, none],
           rng := { state0 := 1, state1 := 4 } } := by decide

/-- C7 (amended): applying `ToggleOutflow{p, a, b}` twice in succession with
no intervening `advance()` restores node `a`'s outflow list up to
membership (the same outflow set), and leaves the occupancy, owner and goop
of node `a`, every other node, and the rest of the state unchanged; the
outflow list itself may be reordered (the toggled edge is re-appended at
the end), so the whole state is not always restored exactly. -/
theorem C7_toggle_twice_restores_set (s : State) (player fr dst : Nat)
    (h : fr < s.nodes.length) :
    ∃ s₁ s₂,
      s.take_action (.ToggleOutflow player fr dst) = some s₁ ∧
      s₁.take_action (.ToggleOutflow player fr dst) = some s₂ ∧
      s₂.sources = s.sources ∧ s₂.rng = s.rng ∧
      s₂.nodes.length = s.nodes.length ∧
      (∀ i, i ≠ fr → s₂.nodes.get? i = s.nodes.get? i) ∧
      cellToggleEquiv (s₂.nodes.getD fr none) (s.nodes.getD fr none) := by
  obtain ⟨c, hget⟩ : ∃ c, s.nodes.get? fr = some c := by
    rw [List.get?_eq_getElem?]
    exact ⟨s.nodes[fr], List.getElem?_eq_getElem h⟩
  have hgetD : s.nodes.getD fr none = c := by
    show (s.nodes.get? fr).getD none = c
    rw [hget]; rfl
  match c, hget, hgetD with
  | none, hget, hgetD =>
    refine ⟨s, s, ?_, ?_, rfl, rfl, rfl, fun i _ => rfl, ?_⟩
    · simp only [State.take_action, hget]
    · simp only [State.take_action, hget]
    · rw [hgetD]; trivial
  | some occ, hget, hgetD =>
    by_cases hpl : occ.player = player
    case neg =>
      have hne : occ.player ≠ player := hpl
      refine ⟨s, s, ?_, ?_, rfl, rfl, rfl, fun i _ => rfl, ?_⟩
      · simp only [State.take_action, hget]; rw [if_pos hne]
      · simp only [State.take_action, hget]; rw [if_pos hne]
      · rw [hgetD]; exact ⟨rfl, rfl, fun n => Iff.rfl⟩
    case pos =>
      have hnn : ¬ occ.player ≠ player := fun hc => hc hpl
      set out₁ : List Nat :=
        if occ.outflows.contains dst then occ.outflows.filter (fun d => d ≠ dst)
        else occ.outflows ++ [dst] with hout₁
      have hstep₁ : s.take_action (.ToggleOutflow player fr dst) =
          some { s with nodes := s.nodes.set fr (some { occ with outflows := out₁ }) } := by
        simp only [State.take_action, hget]
        rw [if_neg hnn]
      set nodes₁ := s.nodes.set fr (some { occ with outflows := out₁ }) with hnodes₁
      have hlen₁ : nodes₁.length = s.nodes.length := List.length_set ..
      have hget₁ : nodes₁.get? fr = some (some { occ with outflows := out₁ }) := by
        rw [hnodes₁, List.get?_set_eq_of_lt _ h]
      set out₂ : List Nat :=
        if out₁.contains dst then out₁.filter (fun d => d ≠ dst)
        else out₁ ++ [dst] with hout₂
      have hstep₂ :
          State.take_action { s with nodes := nodes₁ } (.ToggleOutflow player fr dst) =
          some { s with nodes := nodes₁.set fr (some { occ with outflows := out₂ }) } := by
        simp only [State.take_action, hget₁]
        rw [if_neg hnn]
      refine ⟨_, _, hstep₁, hstep₂, rfl, rfl, ?_, ?_, ?_⟩
      · simp [hlen₁]
      · intro i hi
        show (nodes₁.set fr _).get? i = s.nodes.get? i
        rw [List.get?_set_ne _ _ (fun hc => hi hc.symm), hnodes₁,
            List.get?_set_ne _ _ (fun hc => hi hc.symm)]
      · have hfr2 : fr < nodes₁.length := hlen₁ ▸ h
        have hget₂ : (nodes₁.set fr (some { occ with outflows := out₂ })).getD fr none =
            some { occ with outflows := out₂ } := by
          show ((nodes₁.set fr _).get? fr).getD none = _
          rw [List.get?_set_eq_of_lt _ hfr2]; rfl
        rw [hget₂, hgetD]
        refine ⟨rfl, rfl, fun n => ?_⟩
        by_cases hmem : dst ∈ occ.outflows
        · have hc₁ : occ.outflows.contains dst = true := List.elem_eq_true_of_mem hmem
          have ho₁ : out₁ = occ.outflows.filter (fun d => d ≠ dst) := by
            rw [hout₁, if_pos hc₁]
          have hc₂ : out₁.contains dst = false := by
            rw [ho₁]
            by_contra hc
            have : dst ∈ occ.outflows.filter (fun d => d ≠ dst) := by
              have := Bool.of_not_eq_false hc
              exact List.mem_of_elem_eq_true this
            simp at this
          have ho₂ : out₂ = occ.outflows.filter (fun d => d ≠ dst) ++ [dst] := by
            rw [hout₂, hc₂, ho₁]; rfl
          rw [ho₂]
          simp only [List.mem_append, List.mem_filter, List.mem_singleton,
            decide_eq_true_eq]
          constructor
          · rintro (⟨hn, _⟩ | rfl)
            · exact hn
            · exact hmem
          · intro hn
            by_cases heq : n = dst
            · exact Or.inr heq
            · exact Or.inl ⟨hn, heq⟩
        · have hc₁ : occ.outflows.contains dst = false := by
            by_contra hc
            exact hmem (List.mem_of_elem_eq_true (Bool.of_not_eq_false hc))
          have ho₁ : out₁ = occ.outflows ++ [dst] := by
            rw [hout₁, hc₁]; rfl
          have hc₂ : out₁.contains dst = true := by
            rw [ho₁]
            exact List.elem_eq_true_of_mem (by simp)
          have ho₂ : out₂ = occ.outflows := by
            rw [hout₂, if_pos hc₂, ho₁, List.filter_append]
            have h1 : occ.outflows.filter (fun d => d ≠ dst) = occ.outflows :=
              List.filter_eq_self.mpr (fun a ha => by
                simp only [decide_eq_true_eq]
                exact fun hc => hmem (hc ▸ ha))
            have h2 : [dst].filter (fun d => d ≠ dst) = [] := by simp
            rw [h1, h2, List.append_nil]
          rw [ho₂]

/-- Witness for C7 (amended) at a concrete state. -/
theorem C7_toggle_twice_restores_set_witness :
    (0 : Nat) < 1 ∧
    ∃ s₁ s₂,
      State.take_action { sources := [], nodes := [some ⟨0, [1, 2], 5⟩],
                          rng := { state0 := 1, state1 := 4 } }
        (.ToggleOutflow 0 0 1) = some s₁ ∧
      s₁.take_action (.ToggleOutflow 0 0 1) = some s₂ ∧
      s₂.sources = ([] : List Nat) ∧ s₂.rng = { state0 := 1, state1 := 4 } ∧
      s₂.nodes.length = [some (⟨0, [1, 2], 5⟩ : Occupied)].length ∧
      (∀ i, i ≠ 0 → s₂.nodes.get? i = [some (⟨0, [1, 2], 5⟩ : Occupied)].get? i) ∧
      cellToggleEquiv (s₂.nodes.getD 0 none)
        ([some (⟨0, [1, 2], 5⟩ : Occupied)].getD 0 none) :=
  ⟨by decide,
   C7_toggle_twice_restores_set
     { sources := [], nodes := [some ⟨0, [1, 2], 5⟩],
       rng := { state0 := 1, state1 := 4 } } 0 0 1 (by decide)⟩

/-- `simulate_flow` preserves the goop bound on both cells. -/
lemma simulate_flow_cellGoopOK {f t f' t' : NodeCell} {att : Bool}
    (h : simulate_flow f t = some (f', t', att))
    (hf : cellGoopOK f) (ht : cellGoopOK t) :
    cellGoopOK f' ∧ cellGoopOK t' := by
  match f, t with
  | none, t => exact absurd h (by simp [simulate_flow])
  | some fo, none =>
    simp only [simulate_flow] at h
    split at h
    · simp only [Option.some.injEq, Prod.mk.injEq] at h
      obtain ⟨rfl, rfl, rfl⟩ := h
      exact ⟨hf, ht⟩
    · simp only [Option.some.injEq, Prod.mk.injEq] at h
      obtain ⟨rfl, rfl, rfl⟩ := h
      simp only [cellGoopOK, MAX_GOOP] at hf ⊢
      omega
  | some fo, some tn =>
    simp only [simulate_flow] at h
    by_cases h0 : fo.goop = 0
    · rw [if_pos h0] at h
      simp only [Option.some.injEq, Prod.mk.injEq] at h
      obtain ⟨rfl, rfl, rfl⟩ := h
      exact ⟨hf, ht⟩
    · rw [if_neg h0] at h
      by_cases hpl : fo.player = tn.player
      · rw [if_pos hpl] at h
        by_cases hmv : 0 < fo.goop ∧ tn.goop < MAX_GOOP
        · rw [if_pos hmv] at h
          simp only [Option.some.injEq, Prod.mk.injEq] at h
          obtain ⟨rfl, rfl, rfl⟩ := h
          simp only [cellGoopOK, MAX_GOOP] at hf ht ⊢
          constructor
          · omega
          · exact hmv.2
        · rw [if_neg hmv] at h
          simp only [Option.some.injEq, Prod.mk.injEq] at h
          obtain ⟨rfl, rfl, rfl⟩ := h
          exact ⟨hf, ht⟩
      · rw [if_neg hpl] at h
        by_cases hgt : 1 < tn.goop
        · rw [if_pos hgt] at h
          simp only [Option.some.injEq, Prod.mk.injEq] at h
          obtain ⟨rfl, rfl, rfl⟩ := h
          simp only [cellGoopOK, MAX_GOOP] at hf ht ⊢
          omega
        · rw [if_neg hgt] at h
          simp only [Option.some.injEq, Prod.mk.injEq] at h
          obtain ⟨rfl, rfl, rfl⟩ := h
          simp only [cellGoopOK, MAX_GOOP] at hf ht ⊢
          omega

/-- A cell read with `getD` from a bounded board is bounded. -/
lemma goopBounded_getD {nodes : List NodeCell} (hb : goopBounded nodes) (i : Nat) :
    cellGoopOK (nodes.getD i none) := by
  cases hg : nodes.get? i with
  | none =>
    show cellGoopOK ((nodes.get? i).getD none)
    rw [hg]; trivial
  | some c =>
    show cellGoopOK ((nodes.get? i).getD none)
    rw [hg]
    exact hb c (List.get?_mem hg)

/-- Setting a bounded cell keeps the board bounded. -/
lemma goopBounded_set {nodes : List NodeCell} (hb : goopBounded nodes)
    {c : NodeCell} (hc : cellGoopOK c) (i : Nat) :
    goopBounded (nodes.set i c) := by
  intro d hd
  rcases List.mem_or_eq_of_mem_set hd with h | rfl
  · exact hb d h
  · exact hc

/-- The flow loop preserves the goop bound. -/
lemma flowLoopRev_goopBounded :
    ∀ (l : List (Nat × Nat)) (nodes nodes' : List NodeCell),
      flowLoopRev nodes l = some nodes' → goopBounded nodes → goopBounded nodes' := by
  intro l nodes
  induction nodes, l using flowLoopRev.induct with
  | case1 nodes =>
    intro nodes' h hb
    simp only [flowLoopRev, Option.some.injEq] at h
    exact h ▸ hb
  | case2 nodes fr dst rest hguard =>
    intro nodes' h hb
    simp only [flowLoopRev, if_pos hguard] at h
    exact Option.noConfusion h
  | case3 nodes fr dst rest hguard hsf =>
    intro nodes' h hb
    simp only [flowLoopRev, if_neg hguard, hsf] at h
    exact Option.noConfusion h
  | case4 nodes fr dst rest hguard f' t' att hsf nn rr ih =>
    intro nodes' h hb
    simp only [flowLoopRev, if_neg hguard, hsf] at h
    obtain ⟨hf', ht'⟩ := simulate_flow_cellGoopOK hsf
      (goopBounded_getD hb fr) (goopBounded_getD hb dst)
    exact ih nodes' h (goopBounded_set (goopBounded_set hb hf' fr) ht' dst)

/-- The goop-generation loop preserves the goop bound. -/
lemma genGoopAux_goopBounded :
    ∀ (srcs : List Nat) (nodes nodes' : List NodeCell),
      genGoopAux nodes srcs = some nodes' → goopBounded nodes → goopBounded nodes' := by
  intro srcs
  induction srcs with
  | nil =>
    intro nodes nodes' h hb
    simp only [genGoopAux, Option.some.injEq] at h
    exact h ▸ hb
  | cons src rest ih =>
    intro nodes nodes' h hb
    simp only [genGoopAux] at h
    cases hg : nodes.get? src with
    | none => rw [hg] at h; exact absurd h (by simp)
    | some c =>
      cases c with
      | none => rw [hg] at h; exact absurd h (by simp)
      | some occ =>
        rw [hg] at h
        refine ih _ nodes' h (goopBounded_set hb ?_ src)
        have hocc : occ.goop ≤ MAX_GOOP := hb _ (List.get?_mem hg)
        by_cases hlt : occ.goop < MAX_GOOP
        · simp only [cellGoopOK, if_pos hlt]
          omega
        · simp only [cellGoopOK, if_neg hlt]
          exact hocc

/-- C6: starting from a state in which every node's goop lies in
`[0, MAX_GOOP]`, a `flow()` pass, a `generate_goop()` pass, and a full
`advance()` each preserve that bound (goop is a `Nat`, so it can never go
negative; every decrement in the source is guarded by a positivity match or
pattern, and every increment is guarded by `< MAX_GOOP` or sets the cell to
at most 1). -/
theorem C6_goop_bounds (s : State) (h : goopBounded s.nodes) :
    (∀ s', s.flow = some s' → goopBounded s'.nodes) ∧
    (∀ s', s.generate_goop = some s' → goopBounded s'.nodes) ∧
    (∀ s', s.advance = some s' → goopBounded s'.nodes) := by
  have hflow : ∀ s', s.flow = some s' → goopBounded s'.nodes := by
    intro s' hs'
    simp only [State.flow] at hs'
    split at hs'
    · exact absurd hs' (by simp)
    · rename_i nodes' heq
      simp only [Option.some.injEq] at hs'
      rw [← hs']
      exact flowLoopRev_goopBounded _ _ _ heq h
  have hgen : ∀ (t s' : State), goopBounded t.nodes → t.generate_goop = some s' →
      goopBounded s'.nodes := by
    intro t s' htb hs'
    simp only [State.generate_goop] at hs'
    split at hs'
    · exact absurd hs' (by simp)
    · rename_i nodes' heq
      simp only [Option.some.injEq] at hs'
      rw [← hs']
      exact genGoopAux_goopBounded _ _ _ heq htb
  refine ⟨hflow, fun s' hs' => hgen s s' h hs', ?_⟩
  intro s' hs'
  simp only [State.advance] at hs'
  split at hs'
  · exact absurd hs' (by simp)
  · rename_i s₁ heq
    exact hgen s₁ s' (hflow s₁ heq) hs'

/-- Witness for C6 at a concrete bounded state. -/
theorem C6_goop_bounds_witness :
    goopBounded [some ⟨0, [1], 15⟩, none] ∧
    ((∀ s', State.flow { sources := [0], nodes := [some ⟨0, [1], 15⟩, none],
                         rng := { state0 := 1, state1 := 4 } } = some s' →
        goopBounded s'.nodes) ∧
     (∀ s', State.generate_goop { sources := [0], nodes := [some ⟨0, [1], 15⟩, none],
                                  rng := { state0 := 1, state1 := 4 } } = some s' →
        goopBounded s'.nodes) ∧
     (∀ s', State.advance { sources := [0], nodes := [some ⟨0, [1], 15⟩, none],
                            rng := { state0 := 1, state1 := 4 } } = some s' →
        goopBounded s'.nodes)) :=
  ⟨by decide, C6_goop_bounds _ (by decide)⟩

/-- `simulate_flow` never vacates a cell: the origin stays occupied, and an
occupied destination stays occupied. -/
lemma simulate_flow_isSome {f t f' t' : NodeCell} {att : Bool}
    (h : simulate_flow f t = some (f', t', att)) :
    f'.isSome ∧ (t.isSome → t'.isSome) := by
  match f, t with
  | none, t => exact absurd h (by simp [simulate_flow])
  | some fo, none =>
    simp only [simulate_flow] at h
    split at h <;>
    · simp only [Option.some.injEq, Prod.mk.injEq] at h
      obtain ⟨rfl, rfl, rfl⟩ := h
      simp
  | some fo, some tn =>
    simp only [simulate_flow] at h
    by_cases h0 : fo.goop = 0
    · rw [if_pos h0] at h
      simp only [Option.some.injEq, Prod.mk.injEq] at h
      obtain ⟨rfl, rfl, rfl⟩ := h
      simp
    · rw [if_neg h0] at h
      by_cases hpl : fo.player = tn.player
      · rw [if_pos hpl] at h
        split at h <;>
        · simp only [Option.some.injEq, Prod.mk.injEq] at h
          obtain ⟨rfl, rfl, rfl⟩ := h
          simp
      · rw [if_neg hpl] at h
        split at h <;>
        · simp only [Option.some.injEq, Prod.mk.injEq] at h
          obtain ⟨rfl, rfl, rfl⟩ := h
          simp

/-- The flow loop preserves the board length and never vacates a cell. -/
lemma flowLoopRev_occ :
    ∀ (l : List (Nat × Nat)) (nodes nodes' : List NodeCell),
      flowLoopRev nodes l = some nodes' →
      nodes'.length = nodes.length ∧
      ∀ i, (nodes.getD i none).isSome → (nodes'.getD i none).isSome := by
  intro l nodes
  induction nodes, l using flowLoopRev.induct with
  | case1 nodes =>
    intro nodes' h
    simp only [flowLoopRev, Option.some.injEq] at h
    exact h ▸ ⟨rfl, fun i hi => hi⟩
  | case2 nodes fr dst rest hguard =>
    intro nodes' h
    simp only [flowLoopRev, if_pos hguard] at h
    exact Option.noConfusion h
  | case3 nodes fr dst rest hguard hsf =>
    intro nodes' h
    simp only [flowLoopRev, if_neg hguard, hsf] at h
    exact Option.noConfusion h
  | case4 nodes fr dst rest hguard f' t' att hsf nn rr ih =>
    intro nodes' h
    simp only [flowLoopRev, if_neg hguard, hsf] at h
    obtain ⟨hlen, hmono⟩ := ih nodes' h
    push_neg at hguard
    obtain ⟨hne, hfr, hdst⟩ := hguard
    have hlen₁ : ((nodes.set fr f').set dst t').length = nodes.length := by simp
    refine ⟨hlen.trans hlen₁, ?_⟩
    intro i hi
    refine hmono i ?_
    obtain ⟨hf', ht'⟩ := simulate_flow_isSome hsf
    show ((((nodes.set fr f').set dst t').get? i).getD none).isSome
    by_cases hid : i = dst
    · subst hid
      rw [List.get?_set_eq_of_lt _ (by simpa using hdst)]
      exact ht' hi
    · by_cases hif : i = fr
      · subst hif
        rw [List.get?_set_ne _ _ (fun hc => hid hc.symm),
            List.get?_set_eq_of_lt _ hfr]
        simpa using hf'
      · rw [List.get?_set_ne _ _ (fun hc => hid hc.symm),
            List.get?_set_ne _ _ (fun hc => hif hc.symm)]
        exact hi

/-- The goop-generation loop preserves the board length and never vacates a
cell. -/
lemma genGoopAux_occ :
    ∀ (srcs : List Nat) (nodes nodes' : List NodeCell),
      genGoopAux nodes srcs = some nodes' →
      nodes'.length = nodes.length ∧
      ∀ i, (nodes.getD i none).isSome → (nodes'.getD i none).isSome := by
  intro srcs
  induction srcs with
  | nil =>
    intro nodes nodes' h
    simp only [genGoopAux, Option.some.injEq] at h
    exact h ▸ ⟨rfl, fun i hi => hi⟩
  | cons src rest ih =>
    intro nodes nodes' h
    simp only [genGoopAux] at h
    cases hg : nodes.get? src with
    | none => rw [hg] at h; exact absurd h (by simp)
    | some c =>
      cases c with
      | none => rw [hg] at h; exact absurd h (by simp)
      | some occ =>
        rw [hg] at h
        obtain ⟨hlen, hmono⟩ := ih _ nodes' h
        have hsrc : src < nodes.length := get?_some_lt hg
        refine ⟨hlen.trans (by simp), ?_⟩
        intro i hi
        refine hmono i ?_
        show (((nodes.set src _).get? i).getD none).isSome
        by_cases his : i = src
        · subst his
          rw [List.get?_set_eq_of_lt _ hsrc]
          simp
        · rw [List.get?_set_ne _ _ (fun hc => his hc.symm)]
          exact hi

/-- `take_action` preserves the board length and never vacates a cell. -/
lemma take_action_occ (s : State) (a : Action) (s' : State)
    (h : s.take_action a = some s') :
    s'.nodes.length = s.nodes.length ∧
    ∀ i, (s.nodes.getD i none).isSome → (s'.nodes.getD i none).isSome := by
  obtain ⟨player, fr, dst⟩ := a
  simp only [State.take_action] at h
  split at h
  · exact Option.noConfusion h
  · simp only [Option.some.injEq] at h
    exact h ▸ ⟨rfl, fun i hi => hi⟩
  · rename_i occ hg
    by_cases hpl : occ.player ≠ player
    · rw [if_pos hpl] at h
      simp only [Option.some.injEq] at h
      exact h ▸ ⟨rfl, fun i hi => hi⟩
    · rw [if_neg hpl] at h
      simp only [Option.some.injEq] at h
      have hfr : fr < s.nodes.length := get?_some_lt hg
      subst h
      refine ⟨by simp, ?_⟩
      intro i hi
      show (((s.nodes.set fr _).get? i).getD none).isSome
      by_cases hif : i = fr
      · subst hif
        rw [List.get?_set_eq_of_lt _ hfr]
        simp
      · rw [List.get?_set_ne _ _ (fun hc => hif hc.symm)]
        exact hi

/-- `flow` preserves the board length and never vacates a cell. -/
lemma flow_occ (s s' : State) (h : s.flow = some s') :
    s'.nodes.length = s.nodes.length ∧
    ∀ i, (s.nodes.getD i none).isSome → (s'.nodes.getD i none).isSome := by
  simp only [State.flow] at h
  split at h
  · exact absurd h (by simp)
  · rename_i nodes' heq
    simp only [Option.some.injEq] at h
    rw [← h]
    exact flowLoopRev_occ _ _ _ heq

/-- `generate_goop` preserves the board length and never vacates a cell. -/
lemma generate_goop_occ (s s' : State) (h : s.generate_goop = some s') :
    s'.nodes.length = s.nodes.length ∧
    ∀ i, (s.nodes.getD i none).isSome → (s'.nodes.getD i none).isSome := by
  simp only [State.generate_goop] at h
  split at h
  · exact absurd h (by simp)
  · rename_i nodes' heq
    simp only [Option.some.injEq] at h
    rw [← h]
    exact genGoopAux_occ _ _ _ heq

/-- `advance` preserves the board length and never vacates a cell. -/
lemma advance_occ (s s' : State) (h : s.advance = some s') :
    s'.nodes.length = s.nodes.length ∧
    ∀ i, (s.nodes.getD i none).isSome → (s'.nodes.getD i none).isSome := by
  simp only [State.advance] at h
  split at h
  · exact absurd h (by simp)
  · rename_i s₁ heq
    obtain ⟨hl₁, hm₁⟩ := flow_occ _ _ heq
    obtain ⟨hl₂, hm₂⟩ := generate_goop_occ _ _ h
    exact ⟨hl₂.trans hl₁, fun i hi => hm₂ i (hm₁ i hi)⟩

/-- C10: occupancy is monotonic — neither `take_action` nor `advance` ever
returns an occupied cell to `none` (and neither changes the number of
cells); the only `Option`-level transition anywhere is from absent to
occupied. -/
theorem C10_occupancy_monotonic (s : State) :
    (∀ a s', s.take_action a = some s' →
       s'.nodes.length = s.nodes.length ∧
       ∀ i, (s.nodes.getD i none).isSome → (s'.nodes.getD i none).isSome) ∧
    (∀ s', s.advance = some s' →
       s'.nodes.length = s.nodes.length ∧
       ∀ i, (s.nodes.getD i none).isSome → (s'.nodes.getD i none).isSome) :=
  ⟨fun a s' h => take_action_occ s a s' h, fun s' h => advance_occ s s' h⟩

/-- Witness for C10: a concrete `take_action` and a concrete `advance`. -/
theorem C10_occupancy_monotonic_witness :
    (State.take_action { sources := [0], nodes := [some ⟨0, [], 1⟩, none],
                         rng := { state0 := 1, state1 := 4 } }
       (.ToggleOutflow 0 0 1) =
     some { sources := [0], nodes := [some ⟨0, [1], 1⟩, none],
            rng := { state0 := 1, state1 := 4 } } ∧
     ([some (⟨0, [1], 1⟩ : Occupied), none] : List NodeCell).length =
       ([some (⟨0, [], 1⟩ : Occupied), none] : List NodeCell).length ∧
     ∀ i, (([some (⟨0, [], 1⟩ : Occupied), none] : List NodeCell).getD i none).isSome →
       (([some (⟨0, [1], 1⟩ : Occupied), none] : List NodeCell).getD i none).isSome) :=
  ⟨by decide,
   (C10_occupancy_monotonic
       { sources := [0], nodes := [some ⟨0, [], 1⟩, none],
         rng := { state0 := 1, state1 := 4 } }).1
     (.ToggleOutflow 0 0 1)
     { sources := [0], nodes := [some ⟨0, [1], 1⟩, none],
       rng := { state0 := 1, state1 := 4 } }
     (by decide)⟩

/-- The source-registration loop of `State::new`: preserves the board
length, leaves nodes outside the source list untouched, and (when the
sources are distinct) marks the `i`-th source as occupied by player
`p + i` with no outflows and no goop. -/
lemma newNodesAux_spec :
    ∀ (srcs : List Nat) (nodes : List NodeCell) (p : Nat) (nodes' : List NodeCell),
      newNodesAux nodes p srcs = some nodes' →
      nodes'.length = nodes.length ∧
      (∀ j, j ∉ srcs → nodes'.get? j = nodes.get? j) ∧
      (srcs.Nodup →
        ∀ i src, srcs.get? i = some src →
          nodes'.getD src none = some ⟨p + i, [], 0⟩) := by
  intro srcs
  induction srcs with
  | nil =>
    intro nodes p nodes' h
    simp only [newNodesAux, Option.some.injEq] at h
    subst h
    exact ⟨rfl, fun j _ => rfl, fun _ i src hg => by simp at hg⟩
  | cons src rest ih =>
    intro nodes p nodes' h
    simp only [newNodesAux] at h
    split at h
    case isTrue hlt =>
      obtain ⟨hlen, huntouched, hreg⟩ := ih _ (p + 1) nodes' h
      refine ⟨hlen.trans (by simp), ?_, ?_⟩
      · intro j hj
        have hjr : j ∉ rest := fun hc => hj (List.mem_cons_of_mem _ hc)
        have hjs : j ≠ src := fun hc => hj (hc ▸ List.mem_cons_self _ _)
        rw [huntouched j hjr, List.get?_set_ne _ _ (fun hc => hjs hc.symm)]
      · intro hnd i s0 hg
        cases i with
        | zero =>
          have hg' : s0 = src := by simpa using hg.symm
          subst hg'
          have hnotin : s0 ∉ rest := (List.nodup_cons.mp hnd).1
          show ((nodes'.get? s0).getD none) = _
          rw [huntouched s0 hnotin, List.get?_set_eq_of_lt _ hlt]
          simp
        | succ i =>
          have hstep := hreg (List.nodup_cons.mp hnd).2 i s0 (by simpa using hg)
          rw [hstep]
          have : p + 1 + i = p + (i + 1) := by omega
          rw [this]
    case isFalse => exact Option.noConfusion h

/-- `advanceN` never vacates a cell. -/
lemma advanceN_occ :
    ∀ (n : Nat) (s s' : State), advanceN n s = some s' →
      ∀ i, (s.nodes.getD i none).isSome → (s'.nodes.getD i none).isSome := by
  intro n
  induction n with
  | zero =>
    intro s s' h
    simp only [advanceN, Option.some.injEq] at h
    exact h ▸ fun i hi => hi
  | succ n ih =>
    intro s s' h
    simp only [advanceN] at h
    split at h
    · exact Option.noConfusion h
    · rename_i s₁ heq
      exact fun i hi => ih s₁ s' h i ((advance_occ s s₁ heq).2 i hi)

/-- C8: for a state built by `State::new` (with distinct source positions,
as the registration loop otherwise overwrites earlier sources), the `i`-th
registered source starts occupied by player `i` with no outflows and no
goop, and after any number of `advance()` calls every original source node
is still present (its cell is `some`, never reverting to absent). -/
theorem C8_sources_persistent (params : GameParameters) (s : State)
    (hs : State.new params = some s) (hnd : params.sources.Nodup) :
    (∀ i src, params.sources.get? i = some src →
       s.nodes.getD src none = some ⟨i, [], 0⟩) ∧
    (∀ n s', advanceN n s = some s' →
       ∀ src ∈ params.sources, (s'.nodes.getD src none).isSome) := by
  simp only [State.new] at hs
  split at hs
  · exact Option.noConfusion hs
  · rename_i nodes heq
    simp only [Option.some.injEq] at hs
    obtain ⟨hlen, huntouched, hreg⟩ := newNodesAux_spec _ _ _ _ heq
    have hreg' : ∀ i src, params.sources.get? i = some src →
        s.nodes.getD src none = some ⟨i, [], 0⟩ := by
      intro i src hg
      rw [← hs]
      simpa using hreg hnd i src hg
    refine ⟨hreg', ?_⟩
    have hbase : ∀ src ∈ params.sources, (s.nodes.getD src none).isSome := by
      intro src hmem
      obtain ⟨i, hi⟩ := List.get?_of_mem hmem
      rw [hreg' i src hi]
      rfl
    intro n s' h src hmem
    exact advanceN_occ n s s' h src (hbase src hmem)

/-- Witness for C8 on a concrete 1×3 board with sources at nodes 0 and 2. -/
theorem C8_sources_persistent_witness :
    State.new { board := (1, 3), sources := [0, 2] } =
      some { sources := [0, 2],
             nodes := [some ⟨0, [], 0⟩, none, some ⟨1, [], 0⟩],
             rng := { state0 := 0xcd9d5eaaf04bc9a7, state1 := 0x4602cc7098d01ef9 } } ∧
    ([0, 2] : List Nat).Nodup ∧
    ((∀ i src, ([0, 2] : List Nat).get? i = some src →
        ([some ⟨0, [], 0⟩, none, some ⟨1, [], 0⟩] : List NodeCell).getD src none =
          some ⟨i, [], 0⟩) ∧
     (∀ n s', advanceN n
          { sources := [0, 2],
            nodes := [some ⟨0, [], 0⟩, none, some ⟨1, [], 0⟩],
            rng := { state0 := 0xcd9d5eaaf04bc9a7,
                     state1 := 0x4602cc7098d01ef9 } } = some s' →
        ∀ src ∈ ([0, 2] : List Nat), (s'.nodes.getD src none).isSome)) :=
  ⟨by decide, by decide,
   C8_sources_persistent { board := (1, 3), sources := [0, 2] }
     { sources := [0, 2],
       nodes := [some ⟨0, [], 0⟩, none, some ⟨1, [], 0⟩],
       rng := { state0 := 0xcd9d5eaaf04bc9a7, state1 := 0x4602cc7098d01ef9 } }
     (by decide) (by decide)⟩

/-- The instrumented flow loop computes the same board as the real one. -/
lemma flowLoopRevT_fst :
    ∀ (nodes : List NodeCell) (l : List (Nat × Nat)),
      flowLoopRev nodes l = Option.map Prod.fst (flowLoopRevT nodes l) := by
  intro nodes l
  induction nodes, l using flowLoopRevT.induct with
  | case1 nodes => simp [flowLoopRev, flowLoopRevT]
  | case2 nodes fr dst rest hguard =>
    simp [flowLoopRev, flowLoopRevT, if_pos hguard]
  | case3 nodes fr dst rest hguard hsf =>
    simp only [flowLoopRev, flowLoopRevT, if_neg hguard, hsf, Option.map_none']
  | case4 nodes fr dst rest hguard f' t' att hsf nn rr hrec ih =>
    have hrec' : flowLoopRevT ((nodes.set fr f').set dst t')
        (if att = true then rest.filter (fun q => decide (q.1 ≠ dst)) else rest) =
        none := hrec
    simp only [flowLoopRev, flowLoopRevT, if_neg hguard, hsf, hrec']
    exact ih.trans (by rw [hrec])
  | case5 nodes fr dst rest hguard f' t' att hsf nn rr res0 tr0 hrec ih =>
    have hrec' : flowLoopRevT ((nodes.set fr f').set dst t')
        (if att = true then rest.filter (fun q => decide (q.1 ≠ dst)) else rest) =
        some (res0, tr0) := hrec
    simp only [flowLoopRev, flowLoopRevT, if_neg hguard, hsf, hrec']
    exact ih.trans (by rw [hrec]; rfl)

/-- If no pending pair originates at `x`, no executed pair originates at
`x` either (pairs are only ever popped or filtered away, never added). -/
lemma flowLoopRevT_no_origin :
    ∀ (nodes : List NodeCell) (l : List (Nat × Nat)),
      ∀ (x : Nat) (res : List NodeCell) (tr : List (Nat × Nat × Bool)),
      flowLoopRevT nodes l = some (res, tr) →
      (∀ p ∈ l, p.1 ≠ x) → ∀ e ∈ tr, e.1 ≠ x := by
  intro nodes l
  induction nodes, l using flowLoopRevT.induct with
  | case1 nodes =>
    intro x res tr h hl e he
    simp only [flowLoopRevT, Option.some.injEq, Prod.mk.injEq] at h
    obtain ⟨-, rfl⟩ := h
    exact absurd he (List.not_mem_nil e)
  | case2 nodes fr dst rest hguard =>
    intro x res tr h hl e he
    simp only [flowLoopRevT, if_pos hguard] at h
    exact Option.noConfusion h
  | case3 nodes fr dst rest hguard hsf =>
    intro x res tr h hl e he
    simp only [flowLoopRevT, if_neg hguard, hsf] at h
    exact Option.noConfusion h
  | case4 nodes fr dst rest hguard f' t' att hsf nn rr hrec ih =>
    intro x res tr h hl e he
    have hrec' : flowLoopRevT ((nodes.set fr f').set dst t')
        (if att = true then rest.filter (fun q => decide (q.1 ≠ dst)) else rest) =
        none := hrec
    simp only [flowLoopRevT, if_neg hguard, hsf, hrec'] at h
    exact Option.noConfusion h
  | case5 nodes fr dst rest hguard f' t' att hsf nn rr res0 tr0 hrec ih =>
    intro x res tr h hl e he
    have hrec' : flowLoopRevT ((nodes.set fr f').set dst t')
        (if att = true then rest.filter (fun q => decide (q.1 ≠ dst)) else rest) =
        some (res0, tr0) := hrec
    simp only [flowLoopRevT, if_neg hguard, hsf, hrec', Option.some.injEq,
      Prod.mk.injEq] at h
    obtain ⟨-, rfl⟩ := h
    rcases List.mem_cons.mp he with rfl | he'
    · exact hl (fr, dst) (List.mem_cons_self _ _)
    · refine ih x res0 tr0 hrec ?_ e he'
      intro p hp
      have hp' : p ∈ (if _h : att = true
          then rest.filter (fun q => decide (q.1 ≠ dst)) else rest) := hp
      by_cases hatt : att = true
      · rw [dif_pos hatt] at hp'
        exact hl p (List.mem_cons_of_mem _ (List.mem_filter.mp hp').1)
      · rw [dif_neg hatt] at hp'
        exact hl p (List.mem_cons_of_mem _ hp')

/-- Once the trace records an attack on `dst`, no later trace entry
originates at `dst`. -/
lemma flowLoopRevT_suppression :
    ∀ (nodes : List NodeCell) (l : List (Nat × Nat)),
      ∀ (res : List NodeCell) (tr : List (Nat × Nat × Bool))
        (pre : List (Nat × Nat × Bool)) (fr dst : Nat)
        (post : List (Nat × Nat × Bool)),
      flowLoopRevT nodes l = some (res, tr) →
      tr = pre ++ (fr, dst, true) :: post →
      ∀ e ∈ post, e.1 ≠ dst := by
  intro nodes l
  induction nodes, l using flowLoopRevT.induct with
  | case1 nodes =>
    intro res tr pre fr dst post h htr e he
    simp only [flowLoopRevT, Option.some.injEq, Prod.mk.injEq] at h
    obtain ⟨-, rfl⟩ := h
    exact absurd htr.symm (List.append_ne_nil_of_right_ne_nil _ (by simp))
  | case2 nodes fr0 dst0 rest hguard =>
    intro res tr pre fr dst post h htr e he
    simp only [flowLoopRevT, if_pos hguard] at h
    exact Option.noConfusion h
  | case3 nodes fr0 dst0 rest hguard hsf =>
    intro res tr pre fr dst post h htr e he
    simp only [flowLoopRevT, if_neg hguard, hsf] at h
    exact Option.noConfusion h
  | case4 nodes fr0 dst0 rest hguard f' t' att hsf nn rr hrec ih =>
    intro res tr pre fr dst post h htr e he
    have hrec' : flowLoopRevT ((nodes.set fr0 f').set dst0 t')
        (if att = true then rest.filter (fun q => decide (q.1 ≠ dst0)) else rest) =
        none := hrec
    simp only [flowLoopRevT, if_neg hguard, hsf, hrec'] at h
    exact Option.noConfusion h
  | case5 nodes fr0 dst0 rest hguard f' t' att hsf nn rr res0 tr0 hrec ih =>
    intro res tr pre fr dst post h htr e he
    have hrec' : flowLoopRevT ((nodes.set fr0 f').set dst0 t')
        (if att = true then rest.filter (fun q => decide (q.1 ≠ dst0)) else rest) =
        some (res0, tr0) := hrec
    simp only [flowLoopRevT, if_neg hguard, hsf, hrec', Option.some.injEq,
      Prod.mk.injEq] at h
    obtain ⟨-, rfl⟩ := h
    cases pre with
    | nil =>
      simp only [List.nil_append, List.cons.injEq] at htr
      obtain ⟨hhead, hpost⟩ := htr
      have hdst0 : dst0 = dst := congrArg (fun q => q.2.1) hhead
      have hatt : att = true := congrArg (fun q => q.2.2) hhead
      subst hpost
      refine flowLoopRevT_no_origin _ _ dst res0 tr0 hrec ?_ e he
      intro p hp
      have hp' : p ∈ (if _h : att = true
          then rest.filter (fun q => decide (q.1 ≠ dst0)) else rest) := hp
      rw [dif_pos hatt] at hp'
      have hne := (List.mem_filter.mp hp').2
      rw [hdst0] at hne
      simpa using hne
    | cons q pre' =>
      simp only [List.cons_append, List.cons.injEq] at htr
      obtain ⟨-, htr'⟩ := htr
      exact ih res0 tr0 pre' fr dst post hrec htr' e he

/-- C5: during a single `flow()` pass, when a pair's processing attacks node
`dst` (the two nodes are occupied by different players and goop flows),
every still-pending pair whose origin is `dst` is removed and never
executes for the remainder of the pass.  Stated on the instrumented loop
`flowLoopRevT`, whose trace lists the pairs that actually execute, in
execution order; the first conjunct ties it to the real loop
`flowLoopRev`: both compute the same board. -/
theorem C5_attack_suppression :
    (∀ (nodes : List NodeCell) (l : List (Nat × Nat)),
       flowLoopRev nodes l = Option.map Prod.fst (flowLoopRevT nodes l)) ∧
    (∀ (nodes : List NodeCell) (l : List (Nat × Nat)) res tr pre fr dst post,
       flowLoopRevT nodes l = some (res, tr) →
       tr = pre ++ (fr, dst, true) :: post →
       ∀ e ∈ post, e.1 ≠ dst) :=
  ⟨flowLoopRevT_fst,
   fun nodes l res tr pre fr dst post h htr =>
     flowLoopRevT_suppression nodes l res tr pre fr dst post h htr⟩

/-- Witness for C5: pair `(0, 1)` attacks node 1, the pending pair
`(1, 2)` is removed, the pending pair `(0, 2)` still executes, and every
executed pair after the attack originates somewhere other than node 1. -/
theorem C5_attack_suppression_witness :
    flowLoopRevT [some ⟨0, [], 5⟩, some ⟨1, [], 5⟩, none] [(0, 1), (0, 2), (1, 2)] =
      some ([some ⟨0, [], 3⟩, some ⟨1, [], 4⟩, some ⟨0, [], 1⟩],
            [(0, 1, true), (0, 2, false)]) ∧
    ([(0, 1, true), (0, 2, false)] : List (Nat × Nat × Bool)) =
      [] ++ (0, 1, true) :: [(0, 2, false)] ∧
    ∀ e ∈ ([(0, 2, false)] : List (Nat × Nat × Bool)), e.1 ≠ 1 :=
  ⟨by simp [flowLoopRevT, simulate_flow, MAX_GOOP], by decide,
   C5_attack_suppression.2 [some ⟨0, [], 5⟩, some ⟨1, [], 5⟩, none]
     [(0, 1), (0, 2), (1, 2)]
     [some ⟨0, [], 3⟩, some ⟨1, [], 4⟩, some ⟨0, [], 1⟩]
     [(0, 1, true), (0, 2, false)] [] 0 1 [(0, 2, false)]
     (by simp [flowLoopRevT, simulate_flow, MAX_GOOP]) (by decide)⟩

/-- The reply channels `processPending` collects are exactly the stored
ones, in player-index order. -/
lemma processPending_replies :
    ∀ (pending : List (Option (PlayerActions × Nat))) (s : State)
      (s1 : State) (acts : List Action) (reps : List Nat),
      processPending s pending = some (s1, acts, reps) →
      reps = storedReplies pending := by
  intro pending
  induction pending with
  | nil =>
    intro s s1 acts reps h
    simp only [processPending, Option.some.injEq, Prod.mk.injEq] at h
    obtain ⟨-, -, rfl⟩ := h
    rfl
  | cons o rest ih =>
    intro s s1 acts reps h
    cases o with
    | none => exact absurd h (by simp [processPending])
    | some pr =>
      obtain ⟨pa0, r0⟩ := pr
      simp only [processPending] at h
      split at h
      · exact Option.noConfusion h
      · rename_i s' happ
        split at h
        · exact Option.noConfusion h
        · rename_i sf acts' reps' heqr
          simp only [Option.some.injEq, Prod.mk.injEq] at h
          obtain ⟨-, -, rfl⟩ := h
          simp only [storedReplies, List.filterMap_cons, Option.map_some']
          rw [ih s' sf acts' reps' heqr]
          rfl

/-- On fully-filled slots, one reply channel is stored per joined
player. -/
lemma storedReplies_length :
    ∀ (pending : List (Option (PlayerActions × Nat))),
      (∀ o ∈ pending, o.isSome = true) →
      (storedReplies pending).length = pending.length := by
  intro pending
  induction pending with
  | nil => intro _; rfl
  | cons o rest ih =>
    intro hall
    cases o with
    | none =>
      have := hall none (List.mem_cons_self _ _)
      simp at this
    | some pr =>
      simp only [storedReplies, List.filterMap_cons, Option.map_some',
        List.length_cons]
      have := ih (fun o ho => hall o (List.mem_cons_of_mem _ ho))
      simp only [storedReplies] at this
      rw [this]

/-- C3: `submit_actions` broadcasts a `CollectedActions` value if and only
if, after this submission, every joined player's slot is filled; with
fewer submissions nothing is sent and the authoritative state and turn are
untouched; and when the barrier completes, every stored reply channel
receives one notification, all notifications carry the identical value,
whose turn is `T + 1` and whose checksum is that of the state obtained by
applying all pending actions and advancing once. -/
theorem C3_scheduler_barrier (sch : Scheduler) (pa : PlayerActions) (r : Nat)
    (sch' : Scheduler) (outs : List (Nat × CollectedActions))
    (h : sch.submit_actions pa r = some (sch', outs)) :
    (outs ≠ [] ↔ (pendingAfter sch pa r).all (fun o => o.isSome) = true) ∧
    ((pendingAfter sch pa r).all (fun o => o.isSome) = false →
       outs = [] ∧ sch'.state = sch.state ∧ sch'.turn = sch.turn) ∧
    ((pendingAfter sch pa r).all (fun o => o.isSome) = true →
       ∃ s1 acts s2,
         processPending sch.state (pendingAfter sch pa r) =
           some (s1, acts, storedReplies (pendingAfter sch pa r)) ∧
         s1.advance = some s2 ∧
         sch'.state = s2 ∧ sch'.turn = sch.turn + 1 ∧
         outs = (storedReplies (pendingAfter sch pa r)).map
           (fun q => (q, { turn := sch.turn + 1, actions := acts,
                           state_checksum := s2.checksum })) ∧
         outs.length = sch.pending_actions.length) := by
  simp only [Scheduler.submit_actions] at h
  split at h
  · exact Option.noConfusion h
  rename_i hturn
  split at h
  · exact Option.noConfusion h
  · exact Option.noConfusion h
  rename_i hslot
  have hplt : pa.player < sch.pending_actions.length := get?_some_lt hslot
  have hPlen : (pendingAfter sch pa r).length = sch.pending_actions.length := by
    simp [pendingAfter]
  rw [show sch.pending_actions.set pa.player (some (pa, r)) = pendingAfter sch pa r
      from rfl] at h
  split at h
  · rename_i hall
    split at h
    · exact Option.noConfusion h
    rename_i s1 acts reps heqP
    split at h
    · exact Option.noConfusion h
    rename_i s2 heqA
    simp only [Option.some.injEq] at h
    have hsch' : sch' =
        { turn := sch.turn + 1, state := s2,
          pending_actions := List.replicate (pendingAfter sch pa r).length none } :=
      (congrArg Prod.fst h).symm
    have houts : outs = reps.map
        (fun q => (q, { turn := sch.turn + 1, actions := acts,
                        state_checksum := s2.checksum })) :=
      (congrArg Prod.snd h).symm
    have hreps : reps = storedReplies (pendingAfter sch pa r) :=
      processPending_replies _ _ _ _ _ heqP
    have hlenr : reps.length = (pendingAfter sch pa r).length := by
      rw [hreps]
      exact storedReplies_length _ (by
        intro o ho
        exact List.all_eq_true.mp hall o ho)
    have houtslen : outs.length = sch.pending_actions.length := by
      rw [houts, List.length_map, hlenr, hPlen]
    refine ⟨?_, ?_, ?_⟩
    · constructor
      · intro _; exact hall
      · intro _
        intro hnil
        rw [hnil] at houtslen
        simp at houtslen
        omega
    · intro hfalse
      rw [hall] at hfalse
      exact Bool.noConfusion hfalse
    · intro _
      refine ⟨s1, acts, s2, ?_, heqA, ?_, ?_, ?_, houtslen⟩
      · rw [← hreps]
        exact heqP
      · rw [hsch']
      · rw [hsch']
      · rw [houts, hreps]
  · rename_i hall
    simp only [Option.some.injEq] at h
    have hsch' : sch' = { sch with pending_actions := pendingAfter sch pa r } :=
      (congrArg Prod.fst h).symm
    have houts : outs = [] := (congrArg Prod.snd h).symm
    have hallf : (pendingAfter sch pa r).all (fun o => o.isSome) = false :=
      Bool.not_eq_true _ ▸ Bool.of_not_eq_true hall
    refine ⟨?_, ?_, ?_⟩
    · constructor
      · intro hne; exact absurd houts hne
      · intro htrue
        rw [htrue] at hallf
        exact Bool.noConfusion hallf
    · intro _
      exact ⟨houts, by rw [hsch'], by rw [hsch']⟩
    · intro htrue
      rw [htrue] at hallf
      exact Bool.noConfusion hallf

/-- Witness for C3: a one-player scheduler; the single submission completes
the barrier and one notification with turn 1 and the advanced state's
checksum goes to the stored channel. -/
theorem C3_scheduler_barrier_witness :
    Scheduler.submit_actions
        { turn := 0,
          state := { sources := [], nodes := [], rng := { state0 := 1, state1 := 4 } },
          pending_actions := [none] }
        { player := 0, turn := 0, actions := [] } 7 =
      some ({ turn := 1,
              state := { sources := [], nodes := [],
                         rng := { state0 := 1, state1 := 4 } },
              pending_actions := [none] },
            [(7, { turn := 1, actions := [],
                   state_checksum := State.checksum
                     { sources := [], nodes := [],
                       rng := { state0 := 1, state1 := 4 } } })]) ∧
    (([(7, { turn := 1, actions := [],
             state_checksum := State.checksum
               { sources := [], nodes := [],
                 rng := { state0 := 1, state1 := 4 } } })] :
        List (Nat × CollectedActions)) ≠ [] ↔
      (pendingAfter
          { turn := 0,
            state := { sources := [], nodes := [],
                       rng := { state0 := 1, state1 := 4 } },
            pending_actions := [none] }
          { player := 0, turn := 0, actions := [] } 7).all
        (fun o => o.isSome) = true) := by
  have h : Scheduler.submit_actions
      { turn := 0,
        state := { sources := [], nodes := [], rng := { state0 := 1, state1 := 4 } },
        pending_actions := [none] }
      { player := 0, turn := 0, actions := [] } 7 =
    some ({ turn := 1,
            state := { sources := [], nodes := [],
                       rng := { state0 := 1, state1 := 4 } },
            pending_actions := [none] },
          [(7, { turn := 1, actions := [],
                 state_checksum := State.checksum
                   { sources := [], nodes := [],
                     rng := { state0 := 1, state1 := 4 } } })]) := by
    simp [Scheduler.submit_actions, processPending, applyActions, State.advance,
          State.flow, State.generate_goop, genGoopAux, buildOutflowList, shuffle,
          shuffleAux, flowLoopRev]
  exact ⟨h, (C3_scheduler_barrier _ _ _ _ _ h).1⟩

/-- Applying a concatenation of action lists applies the first list, then
the second, in order. -/
lemma applyActions_append :
    ∀ (l1 l2 : List Action) (s : State),
      applyActions s (l1 ++ l2) =
        match applyActions s l1 with
        | none => none
        | some s' => applyActions s' l2 := by
  intro l1
  induction l1 with
  | nil => intro l2 s; rfl
  | cons a rest ih =>
    intro l2 s
    simp only [List.cons_append, applyActions]
    cases s.take_action a with
    | none => rfl
    | some s' => exact ih l2 s'

/-- `processPending` applies exactly the canonical player-index-order
concatenation of the pending actions, and collects that same list. -/
lemma processPending_canonical :
    ∀ (pending : List (Option (PlayerActions × Nat))) (s : State)
      (s1 : State) (acts : List Action) (reps : List Nat),
      processPending s pending = some (s1, acts, reps) →
      acts = canonicalActions pending ∧
      applyActions s (canonicalActions pending) = some s1 := by
  intro pending
  induction pending with
  | nil =>
    intro s s1 acts reps h
    simp only [processPending, Option.some.injEq, Prod.mk.injEq] at h
    obtain ⟨rfl, rfl, -⟩ := h
    exact ⟨rfl, rfl⟩
  | cons o rest ih =>
    intro s s1 acts reps h
    cases o with
    | none => exact absurd h (by simp [processPending])
    | some pr =>
      obtain ⟨pa0, r0⟩ := pr
      simp only [processPending] at h
      split at h
      · exact Option.noConfusion h
      rename_i s' happ
      split at h
      · exact Option.noConfusion h
      rename_i sf acts' reps' heqr
      simp only [Option.some.injEq, Prod.mk.injEq] at h
      obtain ⟨rfl, rfl, -⟩ := h
      obtain ⟨hacts', happly⟩ := ih s' sf acts' reps' heqr
      constructor
      · rw [hacts']
        rfl
      · show applyActions s (canonicalActions (some (pa0, r0) :: rest)) = some sf
        have hc : canonicalActions (some (pa0, r0) :: rest) =
            pa0.actions ++ canonicalActions rest := rfl
        rw [hc, applyActions_append, happ]
        exact happly

/-- Completing the barrier: the resulting state and notifications are built
from `processPending` on the filled slots and one `advance`. -/
lemma submit_actions_complete (sch : Scheduler) (pa : PlayerActions) (r : Nat)
    (sch' : Scheduler) (outs : List (Nat × CollectedActions))
    (h : sch.submit_actions pa r = some (sch', outs))
    (hall : (pendingAfter sch pa r).all (fun o => o.isSome) = true) :
    ∃ s1 acts reps s2,
      processPending sch.state (pendingAfter sch pa r) = some (s1, acts, reps) ∧
      s1.advance = some s2 ∧ sch'.state = s2 ∧
      outs = reps.map (fun q => (q, { turn := sch.turn + 1, actions := acts,
                                      state_checksum := s2.checksum })) := by
  simp only [Scheduler.submit_actions] at h
  split at h
  · exact Option.noConfusion h
  split at h
  · exact Option.noConfusion h
  · exact Option.noConfusion h
  rw [show sch.pending_actions.set pa.player (some (pa, r)) = pendingAfter sch pa r
      from rfl] at h
  rw [if_pos hall] at h
  split at h
  · exact Option.noConfusion h
  rename_i s1 acts reps heqP
  split at h
  · exact Option.noConfusion h
  rename_i s2 heqA
  simp only [Option.some.injEq] at h
  refine ⟨s1, acts, reps, s2, heqP, heqA, ?_, (congrArg Prod.snd h).symm⟩
  have hsch' : sch' =
      { turn := sch.turn + 1, state := s2,
        pending_actions := List.replicate (pendingAfter sch pa r).length none } :=
    (congrArg Prod.fst h).symm
  rw [hsch']

/-- A slot that is still empty after a submission keeps the barrier
incomplete: `submit_actions` just stores the submission and sends
nothing. -/
lemma submit_actions_incomplete (sch : Scheduler) (pa : PlayerActions) (r : Nat)
    (hturn : pa.turn = sch.turn)
    (hslot : sch.pending_actions.get? pa.player = some none)
    (j : Nat) (hj : j ≠ pa.player)
    (hjslot : sch.pending_actions.get? j = some none) :
    sch.submit_actions pa r =
      some ({ sch with pending_actions := pendingAfter sch pa r }, []) := by
  have hmem : (none : Option (PlayerActions × Nat)) ∈ pendingAfter sch pa r := by
    refine List.get?_mem (n := j) ?_
    show (sch.pending_actions.set pa.player (some (pa, r))).get? j = some none
    rw [List.get?_set_ne _ _ (fun hc => hj hc.symm)]
    exact hjslot
  have hall : (pendingAfter sch pa r).all (fun o => o.isSome) = false := by
    cases hb : (pendingAfter sch pa r).all (fun o => o.isSome) with
    | false => rfl
    | true =>
      have := List.all_eq_true.mp hb none hmem
      simp at this
  simp only [Scheduler.submit_actions]
  rw [if_neg (fun hc => hc hturn)]
  simp only [hslot]
  rw [show sch.pending_actions.set pa.player (some (pa, r)) = pendingAfter sch pa r
      from rfl]
  rw [if_neg (by simp [hall])]

/-- `submit_actions`, unfolded on a valid submission: the behaviour is a
function of the turn, the state and the slot vector after the store. -/
lemma submit_actions_eq (sch : Scheduler) (pa : PlayerActions) (r : Nat)
    (hturn : pa.turn = sch.turn)
    (hslot : sch.pending_actions.get? pa.player = some none) :
    sch.submit_actions pa r =
      (if (pendingAfter sch pa r).all (fun o => o.isSome) = true then
        match processPending sch.state (pendingAfter sch pa r) with
        | none => none
        | some (s1, acts, reps) =>
          match s1.advance with
          | none => none
          | some s2 =>
            some ({ turn := sch.turn + 1, state := s2,
                    pending_actions :=
                      List.replicate (pendingAfter sch pa r).length none },
                  reps.map (fun q => (q, { turn := sch.turn + 1, actions := acts,
                                           state_checksum := s2.checksum })))
      else
        some ({ turn := sch.turn, state := sch.state,
                pending_actions := pendingAfter sch pa r }, [])) := by
  simp only [Scheduler.submit_actions]
  rw [if_neg (fun hc => hc hturn)]
  simp only [hslot]
  rfl

/-- `submit_actions` is determined by the turn, the state, and the slot
vector after the submission is stored. -/
lemma submit_actions_congr (sch₁ sch₂ : Scheduler) (pa₁ pa₂ : PlayerActions)
    (r₁ r₂ : Nat)
    (ht : sch₁.turn = sch₂.turn) (hs : sch₁.state = sch₂.state)
    (hturn₁ : pa₁.turn = sch₁.turn) (hturn₂ : pa₂.turn = sch₂.turn)
    (hslot₁ : sch₁.pending_actions.get? pa₁.player = some none)
    (hslot₂ : sch₂.pending_actions.get? pa₂.player = some none)
    (hpend : pendingAfter sch₁ pa₁ r₁ = pendingAfter sch₂ pa₂ r₂) :
    sch₁.submit_actions pa₁ r₁ = sch₂.submit_actions pa₂ r₂ := by
  rw [submit_actions_eq sch₁ pa₁ r₁ hturn₁ hslot₁,
      submit_actions_eq sch₂ pa₂ r₂ hturn₂ hslot₂, hpend, ht, hs]

/-- Two successive submissions by different players can be exchanged
without changing the scheduler's behaviour. -/
lemma submitSeq_swap (sch : Scheduler) (x y : PlayerActions × Nat)
    (l : List (PlayerActions × Nat))
    (hxy : x.1.player ≠ y.1.player)
    (hxturn : x.1.turn = sch.turn) (hyturn : y.1.turn = sch.turn)
    (hxslot : sch.pending_actions.get? x.1.player = some none)
    (hyslot : sch.pending_actions.get? y.1.player = some none) :
    submitSeq sch (x :: y :: l) = submitSeq sch (y :: x :: l) := by
  obtain ⟨xa, xr⟩ := x
  obtain ⟨ya, yr⟩ := y
  simp only at hxy hxturn hyturn hxslot hyslot
  have hX := submit_actions_incomplete sch xa xr hxturn hxslot ya.player
    (Ne.symm hxy) hyslot
  have hY := submit_actions_incomplete sch ya yr hyturn hyslot xa.player
    hxy hxslot
  have hsecond :
      Scheduler.submit_actions { sch with pending_actions := pendingAfter sch xa xr }
        ya yr =
      Scheduler.submit_actions { sch with pending_actions := pendingAfter sch ya yr }
        xa xr := by
    apply submit_actions_congr
    · rfl
    · rfl
    · exact hyturn
    · exact hxturn
    · show (pendingAfter sch xa xr).get? ya.player = some none
      show (sch.pending_actions.set xa.player (some (xa, xr))).get? ya.player =
        some none
      rw [List.get?_set_ne _ _ hxy]
      exact hyslot
    · show (pendingAfter sch ya yr).get? xa.player = some none
      show (sch.pending_actions.set ya.player (some (ya, yr))).get? xa.player =
        some none
      rw [List.get?_set_ne _ _ (Ne.symm hxy)]
      exact hxslot
    · show (pendingAfter sch xa xr).set ya.player (some (ya, yr)) =
        (pendingAfter sch ya yr).set xa.player (some (xa, xr))
      exact List.set_comm _ _ _ hxy
  simp only [submitSeq, hX, hY, hsecond]

/-- C4: when the barrier completes, the submitted actions are applied to
the authoritative state in increasing player-index order (within each
player, in submission order), the broadcast action list is exactly that
canonical concatenation, and the whole outcome of a round of submissions is
invariant under the order in which the players' submissions arrive. -/
theorem C4_canonical_application_order :
    (∀ (s : State) (pending : List (Option (PlayerActions × Nat)))
       (s1 : State) (acts : List Action) (reps : List Nat),
       processPending s pending = some (s1, acts, reps) →
       acts = canonicalActions pending ∧
       applyActions s (canonicalActions pending) = some s1) ∧
    (∀ (sch : Scheduler) (pa : PlayerActions) (r : Nat) (sch' : Scheduler)
       (outs : List (Nat × CollectedActions)),
       sch.submit_actions pa r = some (sch', outs) →
       (pendingAfter sch pa r).all (fun o => o.isSome) = true →
       ∃ s1 s2,
         applyActions sch.state (canonicalActions (pendingAfter sch pa r)) =
           some s1 ∧
         s1.advance = some s2 ∧ sch'.state = s2 ∧
         ∀ e ∈ outs, e.2.actions = canonicalActions (pendingAfter sch pa r)) ∧
    (∀ (sch : Scheduler) (subs subs' : List (PlayerActions × Nat)),
       subs.Perm subs' →
       (∀ p ∈ subs, p.1.turn = sch.turn ∧
          sch.pending_actions.get? p.1.player = some none) →
       (subs.map (fun p => p.1.player)).Nodup →
       submitSeq sch subs = submitSeq sch subs') := by
  refine ⟨fun s pending => processPending_canonical pending s, ?_, ?_⟩
  · intro sch pa r sch' outs h hall
    obtain ⟨s1, acts, reps, s2, heqP, heqA, hstate, houts⟩ :=
      submit_actions_complete sch pa r sch' outs h hall
    obtain ⟨hacts, happly⟩ := processPending_canonical _ _ _ _ _ heqP
    refine ⟨s1, s2, happly, heqA, hstate, ?_⟩
    intro e he
    rw [houts] at he
    obtain ⟨q, -, rfl⟩ := List.mem_map.mp he
    exact hacts
  · intro sch subs subs' hperm
    induction hperm generalizing sch with
    | nil => intro _ _; rfl
    | cons x hperm ih =>
      rename_i l₁ l₂
      intro hcond hnd
      cases l₁ with
      | nil =>
        have hl₂ : l₂ = [] := hperm.symm.eq_nil
        rw [hl₂]
      | cons p l0 =>
        obtain ⟨hxturn, hxslot⟩ := hcond x (List.mem_cons_self _ _)
        have hpmem : p ∈ x :: p :: l0 := List.mem_cons_of_mem _ (List.mem_cons_self _ _)
        obtain ⟨-, hpslot⟩ := hcond p hpmem
        have hnd' : x.1.player ∉ (p :: l0).map (fun q => q.1.player) ∧
            ((p :: l0).map (fun q => q.1.player)).Nodup := by
          have hh := hnd
          rw [List.map_cons, List.nodup_cons] at hh
          exact hh
        have hpx : p.1.player ≠ x.1.player := by
          intro hc
          exact hnd'.1 (List.mem_map.mpr ⟨p, List.mem_cons_self _ _, hc⟩)
        obtain ⟨xa, xr⟩ := x
        have hX := submit_actions_incomplete sch xa xr hxturn hxslot
          p.1.player hpx hpslot
        have hrest : submitSeq { sch with pending_actions := pendingAfter sch xa xr }
            (p :: l0) =
            submitSeq { sch with pending_actions := pendingAfter sch xa xr } l₂ := by
          refine ih _ ?_ ?_
          · intro q hq
            obtain ⟨hqturn, hqslot⟩ := hcond q (List.mem_cons_of_mem _ hq)
            refine ⟨hqturn, ?_⟩
            show (sch.pending_actions.set xa.player (some (xa, xr))).get? q.1.player =
              some none
            have hqx : xa.player ≠ q.1.player := by
              intro hc
              exact hnd'.1 (List.mem_map.mpr ⟨q, hq, hc.symm⟩)
            rw [List.get?_set_ne _ _ hqx]
            exact hqslot
          · exact hnd'.2
        have step : ∀ (sx : Scheduler) (rest : List (PlayerActions × Nat)),
            sch.submit_actions xa xr = some (sx, []) →
            submitSeq sch ((xa, xr) :: rest) =
              match submitSeq sx rest with
              | none => none
              | some (schf, outsf) => some (schf, [] ++ outsf) := by
          intro sx rest hxx
          simp only [submitSeq, hxx]
        rw [step _ (p :: l0) hX, step _ l₂ hX, hrest]
    | swap x y l =>
      intro hcond hnd
      have hyx : y.1.player ≠ x.1.player := by
        intro hc
        have hh := hnd
        rw [List.map_cons, List.nodup_cons] at hh
        exact hh.1 (List.mem_map.mpr ⟨x, List.mem_cons_self _ _, hc.symm⟩)
      obtain ⟨hyturn, hyslot⟩ := hcond y (List.mem_cons_self _ _)
      obtain ⟨hxturn, hxslot⟩ :=
        hcond x (List.mem_cons_of_mem _ (List.mem_cons_self _ _))
      exact submitSeq_swap sch y x l hyx hyturn hxturn hyslot hxslot
    | trans h₁ h₂ ih₁ ih₂ =>
      rename_i l₁ l₂ l₃
      intro hcond hnd
      have hcond₂ : ∀ p ∈ l₂, p.1.turn = sch.turn ∧
          sch.pending_actions.get? p.1.player = some none :=
        fun p hp => hcond p (h₁.mem_iff.mpr hp)
      have hnd₂ : (l₂.map (fun p => p.1.player)).Nodup :=
        ((h₁.map (fun p => p.1.player)).nodup_iff).mp hnd
      exact (ih₁ sch hcond hnd).trans (ih₂ sch hcond₂ hnd₂)

/-- Witness for C4: a two-player scheduler; the two submission orders give
the same result, and `processPending` collects the canonical order. -/
theorem C4_canonical_application_order_witness :
    processPending
        { sources := [], nodes := [], rng := { state0 := 1, state1 := 4 } }
        [some ({ player := 0, turn := 0, actions := [] }, 5),
         some ({ player := 1, turn := 0, actions := [] }, 6)] =
      some ({ sources := [], nodes := [], rng := { state0 := 1, state1 := 4 } },
            [], [5, 6]) ∧
    (([] : List Action) = canonicalActions
        [some ({ player := 0, turn := 0, actions := [] }, 5),
         some ({ player := 1, turn := 0, actions := [] }, 6)] ∧
     applyActions
        { sources := [], nodes := [], rng := { state0 := 1, state1 := 4 } }
        (canonicalActions
          [some ({ player := 0, turn := 0, actions := [] }, 5),
           some ({ player := 1, turn := 0, actions := [] }, 6)]) =
      some { sources := [], nodes := [], rng := { state0 := 1, state1 := 4 } }) ∧
    submitSeq
        { turn := 0,
          state := { sources := [], nodes := [], rng := { state0 := 1, state1 := 4 } },
          pending_actions := [none, none] }
        [({ player := 0, turn := 0, actions := [] }, 5),
         ({ player := 1, turn := 0, actions := [] }, 6)] =
      submitSeq
        { turn := 0,
          state := { sources := [], nodes := [], rng := { state0 := 1, state1 := 4 } },
          pending_actions := [none, none] }
        [({ player := 1, turn := 0, actions := [] }, 6),
         ({ player := 0, turn := 0, actions := [] }, 5)] :=
  ⟨by decide,
   C4_canonical_application_order.1
     { sources := [], nodes := [], rng := { state0 := 1, state1 := 4 } }
     [some ({ player := 0, turn := 0, actions := [] }, 5),
      some ({ player := 1, turn := 0, actions := [] }, 6)]
     { sources := [], nodes := [], rng := { state0 := 1, state1 := 4 } }
     [] [5, 6] (by decide),
   C4_canonical_application_order.2.2
     { turn := 0,
       state := { sources := [], nodes := [], rng := { state0 := 1, state1 := 4 } },
       pending_actions := [none, none] }
     [({ player := 0, turn := 0, actions := [] }, 5),
      ({ player := 1, turn := 0, actions := [] }, 6)]
     [({ player := 1, turn := 0, actions := [] }, 6),
      ({ player := 0, turn := 0, actions := [] }, 5)]
     (List.Perm.swap _ _ _) (by decide) (by decide)⟩

/-- Witness for C9: an absent origin and a foreign origin, both concrete. -/
theorem C9_foreign_or_absent_noop_witness :
    (State.take_action { sources := [], nodes := [none, some ⟨2, [0], 5⟩],
                         rng := { state0 := 1, state1 := 4 } }
       (.ToggleOutflow 1 0 1) =
     some { sources := [], nodes := [none, some ⟨2, [0], 5⟩],
            rng := { state0 := 1, state1 := 4 } }) ∧
    (State.take_action { sources := [], nodes := [none, some ⟨2, [0], 5⟩],
                         rng := { state0 := 1, state1 := 4 } }
       (.ToggleOutflow 1 1 0) =
     some { sources := [], nodes := [none, some ⟨2, [0], 5⟩],
            rng := { state0 := 1, state1 := 4 } }) :=
  ⟨C9_foreign_or_absent_noop _ 1 0 1 none rfl (Or.inl rfl),
   C9_foreign_or_absent_noop _ 1 1 0 (some ⟨2, [0], 5⟩) rfl
     (Or.inr ⟨⟨2, [0], 5⟩, rfl, by decide⟩)⟩

end RBattle
